import Mathlib

/-!
Verification of the go-iso8583 message codec and dispatch engine.

Shallow embedding conventions:
* Go strings are modelled as `List Char` (`Str`); `len` is `List.length`.
* The Go map `map[int]string` backing a message object is modelled as an
  association list `IsoMap` in which assignment prepends the binding and
  removes any previous binding for the same key (`setField`), and reads
  return the zero value `[]` for absent keys (`getFieldM`).
* Go slice expressions `s[a:b]` are modelled by `(s.drop a).take (b - a)`
  guarded by an explicit bounds check; the out-of-range panic of a slice
  or index expression is modelled by the error values `PErr.panicSlice`
  and `PErr.panicIndex i` (`i` is the loop index at which the Go program
  would panic), kept distinct from the errors the Go code returns.
* The `for i := 2; i <= 128` loops of `Parse` and `ComposeMessage` are
  modelled by structurally recursive functions consuming a fuel argument;
  the top-level entry points pass fuel 127, exactly the number of
  iterations of the Go loops.
-/

namespace Iso8583

/-- Go strings, modelled as lists of characters. -/
abbrev Str := List Char

/-- One entry of the field schema (Go struct `FieldConfig` with yaml keys
`ContentType`, `Label`, `LenType`, `MaxLen`). -/
structure FieldConfig where
  contentType : Str
  label : Str
  lenType : Str
  maxLen : Nat
deriving DecidableEq

/-- The loaded schema `isoConfig : map[int]FieldConfig`; lookup of an absent
key is `none` (Go's comma-ok idiom). -/
abbrev Schema := Nat → Option FieldConfig

/-- The `isoElement : map[int]string` of a message object. -/
abbrev IsoMap := List (Nat × Str)

/-- Association-list lookup, modelling a Go map read with comma-ok. -/
def lookupF {α β : Type} [DecidableEq α] (k : α) : List (α × β) → Option β
  | [] => none
  | p :: r => if p.1 = k then some p.2 else lookupF k r

/-- Remove every binding of key `k`, used to model map assignment. -/
def eraseKey {α β : Type} [DecidableEq α] (k : α) : List (α × β) → List (α × β)
  | [] => []
  | p :: r => if p.1 = k then eraseKey k r else p :: eraseKey k r

/-- Go map assignment `m[k] = v`. -/
def setField (k : Nat) (v : Str) (m : IsoMap) : IsoMap :=
  (k, v) :: eraseKey k m

/-- Method `GetField`: a Go map read returns the zero value `""` for absent keys. -/
def getFieldM (m : IsoMap) (i : Nat) : Str :=
  (lookupF i m).getD []

/-- The key list of the element map, as ranged over by `for k := range`. -/
def keysOf (m : IsoMap) : List Nat :=
  m.map Prod.fst

/-- The `maxField` computation of `ComposeMessage` (lines 138-143). -/
def maxKey (m : IsoMap) : Nat :=
  m.foldl (fun acc p => max acc p.1) 0

/-- The Go bit test `b & (1 << p) > 0` on a byte value. -/
def bitOf (b p : Nat) : Bool :=
  decide (0 < b &&& (1 <<< p))

/-- The bit of a bitmap byte string assigned to field index `i`:
byte `(i-1)/8`, bit position `7 - ((i-1) % 8)` from the most significant
bit.  Out-of-range bytes read as `0` here; the parser performs its own
bounds check before indexing. -/
def bmTestBit (bm : List Nat) (i : Nat) : Bool :=
  bitOf (bm.getD ((i - 1) / 8) 0) (7 - ((i - 1) % 8))

/-- Value of one hexadecimal digit, as accepted by Go's `hex.DecodeString`. -/
def hexDigitVal (c : Char) : Option Nat :=
  if '0' ≤ c ∧ c ≤ '9' then some (c.toNat - 48)
  else if 'a' ≤ c ∧ c ≤ 'f' then some (c.toNat - 87)
  else if 'A' ≤ c ∧ c ≤ 'F' then some (c.toNat - 55)
  else none

/-- Go `hex.DecodeString`: errors on odd length or a non-hex digit. -/
def hexDecode : Str → Option (List Nat)
  | [] => some []
  | [_] => none
  | a :: b :: rest =>
    match hexDigitVal a, hexDigitVal b, hexDecode rest with
    | some x, some y, some r => some ((x * 16 + y) :: r)
    | _, _, _ => none

/-- Lower-case hexadecimal digit character for a value below 16,
as produced by Go's `hex.EncodeToString`. -/
def hexDigitChar (n : Nat) : Char :=
  if n < 10 then Char.ofNat (48 + n) else Char.ofNat (87 + n)

/-- Go `hex.EncodeToString` on a byte string (lower case). -/
def hexEncode : List Nat → Str
  | [] => []
  | b :: rest => hexDigitChar (b / 16) :: hexDigitChar (b % 16) :: hexEncode rest

/-- Digit run of `strconv.Atoi`: every character must be a decimal digit. -/
def digitsValAux : List Char → Nat → Option Nat
  | [], acc => some acc
  | c :: cs, acc =>
    if '0' ≤ c ∧ c ≤ '9' then digitsValAux cs (acc * 10 + (c.toNat - 48))
    else none

/-- Nonempty all-digit string value; `none` models an `Atoi` error. -/
def digitsVal : List Char → Option Nat
  | [] => none
  | l => digitsValAux l 0

/-- Go `strconv.Atoi`: optional sign followed by at least one digit.
Overflow cannot occur on the 2/3-character inputs the parser passes. -/
def atoiInt : Str → Option Int
  | [] => none
  | '+' :: rest => (digitsVal rest).map (fun n => (n : Int))
  | '-' :: rest => (digitsVal rest).map (fun n => -(n : Int))
  | s => (digitsVal s).map (fun n => (n : Int))

/-- Go `fmt.Sprintf` with verb `%0<w>d` on a natural number. -/
def zeroPadNum (w n : Nat) : Str :=
  let s := Nat.toDigits 10 n
  List.replicate (w - s.length) '0' ++ s

/-- Method `padValue` (iso8583.go lines 200-208): truncate to `maxLen` when longer,
otherwise left-pad numeric (`"n"`) content with `'0'` (`%0*s`) and all other
content right-pad with spaces (`%-*s`). -/
def padValue (value : Str) (maxLen : Nat) (contentType : Str) : Str :=
  if maxLen < value.length then value.take maxLen
  else if contentType = "n".data then List.replicate (maxLen - value.length) '0' ++ value
  else value ++ List.replicate (maxLen - value.length) ' '

/-- Errors of `ComposeMessage`.  `panicIndexCompose` models the Go panic of
`bitmap[byteIndex] |= ...` when a field index exceeds the bitmap width. -/
inductive CErr where
  | emptyElements
  | mtiMissing
  | missingConfig (i : Nat)
  | unsupportedLenType (i : Nat)
  | panicIndexCompose
deriving DecidableEq

/-- Errors of `Parse`.  The constructors `panicSlice` and `panicIndex` model
Go runtime panics (out-of-range slice or index); the remaining constructors
model errors the Go code returns as values. -/
inductive PErr where
  | mtiConfigMissing
  | bitmapConfigMissing
  | hexError
  | fieldConfigMissing (i : Nat)
  | unsupportedLenType (i : Nat)
  | panicSlice
  | panicIndex (i : Nat)
deriving DecidableEq

/-- Whether a parse outcome is a modelled Go panic rather than a returned
error. -/
def PErr.isPanic : PErr → Bool
  | .panicSlice => true
  | .panicIndex _ => true
  | _ => false

/-- The assignment `bitmap[byteIndex] |= 1 << (7 - bitIndex)` for one ranged key
(iso8583.go lines 160-166), skipping keys that are not above 1 and
modelling the index panic by `none`. -/
def setBmBit (bm : List Nat) (field : Nat) : Option (List Nat) :=
  if 1 < field then
    if (field - 1) / 8 < bm.length then
      some (bm.set ((field - 1) / 8)
        ((bm.getD ((field - 1) / 8) 0) ||| (1 <<< (7 - ((field - 1) % 8)))))
    else none
  else some bm

/-- The `for field := range elements` bit-setting loop. -/
def setBits : List Nat → List Nat → Option (List Nat)
  | bm, [] => some bm
  | bm, k :: ks =>
    match setBmBit bm k with
    | some bm2 => setBits bm2 ks
    | none => none

/-- The bitmap built by `ComposeMessage` (lines 137-166): 8 bytes, or 16
bytes with the leftmost bit forced set when any field index exceeds 64,
then one bit per present field index above 1. -/
def composeBitmapOf (el : IsoMap) : Option (List Nat) :=
  let maxField := maxKey el
  let bitmapSize := if 64 < maxField then 16 else 8
  let bm0 := List.replicate bitmapSize 0
  let bm1 := if 64 < maxField then bm0.set 0 ((bm0.getD 0 0) ||| 128) else bm0
  setBits bm1 (keysOf el)

/-- The data-field loop of `ComposeMessage` (lines 173-195), `fuel` many
iterations starting at field index `i`. -/
def composeLoop (cfg : Schema) (el : IsoMap) : Nat → Nat → Except CErr Str
  | 0, _ => .ok []
  | fuel + 1, i =>
    if i ≤ 128 then
      match lookupF i el with
      | some value =>
        match cfg i with
        | none => .error (.missingConfig i)
        | some fc =>
          if fc.lenType = "fixed".data then
            match composeLoop cfg el fuel (i + 1) with
            | .error e => .error e
            | .ok rest => .ok (padValue value fc.maxLen fc.contentType ++ rest)
          else if fc.lenType = "llvar".data then
            match composeLoop cfg el fuel (i + 1) with
            | .error e => .error e
            | .ok rest => .ok (zeroPadNum 2 value.length ++ value ++ rest)
          else if fc.lenType = "lllvar".data then
            match composeLoop cfg el fuel (i + 1) with
            | .error e => .error e
            | .ok rest => .ok (zeroPadNum 3 value.length ++ value ++ rest)
          else .error (.unsupportedLenType i)
      | none => composeLoop cfg el fuel (i + 1)
    else .ok []

/-- Method `ComposeMessage` (iso8583.go lines 124-198): MTI, then the recomputed
bitmap as upper-case hex, then the data fields in ascending index order. -/
def ComposeMessage (cfg : Schema) (el : IsoMap) : Except CErr Str :=
  if el.length = 0 then .error .emptyElements
  else
    match lookupF 0 el with
    | none => .error .mtiMissing
    | some mti =>
      match composeBitmapOf el with
      | none => .error .panicIndexCompose
      | some bm =>
        match composeLoop cfg el 127 2 with
        | .error e => .error e
        | .ok body => .ok (mti ++ (hexEncode bm).map Char.toUpper ++ body)

/-- One bitmap-indicated field read of `Parse` (the `switch` at lines
100-116): returns the field value and the new cursor position. -/
def parseField (i : Nat) (fc : FieldConfig) (message : Str) (pos : Nat) :
    Except PErr (Str × Nat) :=
  if fc.lenType = "fixed".data then
    if pos + fc.maxLen ≤ message.length then
      .ok ((message.drop pos).take fc.maxLen, pos + fc.maxLen)
    else .error .panicSlice
  else if fc.lenType = "llvar".data then
    if pos + 2 ≤ message.length then
      let lenVal : Int := (atoiInt ((message.drop pos).take 2)).getD 0
      if 0 ≤ lenVal then
        if pos + 2 + lenVal.toNat ≤ message.length then
          .ok ((message.drop (pos + 2)).take lenVal.toNat, pos + 2 + lenVal.toNat)
        else .error .panicSlice
      else .error .panicSlice
    else .error .panicSlice
  else if fc.lenType = "lllvar".data then
    if pos + 3 ≤ message.length then
      let lenVal : Int := (atoiInt ((message.drop pos).take 3)).getD 0
      if 0 ≤ lenVal then
        if pos + 3 + lenVal.toNat ≤ message.length then
          .ok ((message.drop (pos + 3)).take lenVal.toNat, pos + 3 + lenVal.toNat)
        else .error .panicSlice
      else .error .panicSlice
    else .error .panicSlice
  else .error (.unsupportedLenType i)

/-- The bitmap-processing loop of `Parse` (lines 93-118), `fuel` many
iterations starting at field index `i`; returns the updated element map,
the cursor, and the outcome.  The byte index `(i-1)/8` is checked against
the buffer length before the Go expression `bitmapBytes[(i-1)/8]` would
index out of range. -/
def parseLoop (cfg : Schema) (bm : List Nat) (message : Str) :
    Nat → Nat → Nat → IsoMap → IsoMap × Nat × Option PErr
  | 0, _, pos, st => (st, pos, none)
  | fuel + 1, i, pos, st =>
    if i ≤ 128 then
      if (i - 1) / 8 < bm.length then
        if bitOf (bm.getD ((i - 1) / 8) 0) (7 - ((i - 1) % 8)) then
          match cfg i with
          | none => (st, pos, some (.fieldConfigMissing i))
          | some fieldConfig =>
            match parseField i fieldConfig message pos with
            | .error e => (st, pos, some e)
            | .ok (v, pos2) => parseLoop cfg bm message fuel (i + 1) pos2 (setField i v st)
        else parseLoop cfg bm message fuel (i + 1) pos st
      else (st, pos, some (.panicIndex i))
    else (st, pos, none)

/-- Method `Parse` (iso8583.go lines 67-121).  The method mutates the receiver's
element map in place, so the model threads the map and returns it together
with the outcome: bindings made before an error or panic are kept. -/
def Parse (cfg : Schema) (message : Str) (st : IsoMap) : IsoMap × Option PErr :=
  match cfg 0 with
  | none => (st, some .mtiConfigMissing)
  | some mtiConfig =>
    if mtiConfig.maxLen ≤ message.length then
      let st1 := setField 0 (message.take mtiConfig.maxLen) st
      let pos1 := mtiConfig.maxLen
      match cfg 1 with
      | none => (st1, some .bitmapConfigMissing)
      | some bitmapConfig =>
        if pos1 + bitmapConfig.maxLen ≤ message.length then
          let bitmapHex := (message.drop pos1).take bitmapConfig.maxLen
          let st2 := setField 1 bitmapHex st1
          match hexDecode bitmapHex with
          | none => (st2, some .hexError)
          | some bitmapBytes =>
            let r := parseLoop cfg bitmapBytes message 127 2 (pos1 + bitmapConfig.maxLen) st2
            (r.1, r.2.2)
        else (st1, some .panicSlice)
    else (st, some .panicSlice)

/-- Handlers mutate the message object in place (`TcpHandler`); modelled as
a state transformer on the element map. -/
abbrev Handler := IsoMap → IsoMap

/-- Method `AddHandler` (Iso8583Engine.go lines 61-63): registers the handler under
`strings.Join(key, "")`, the concatenation of the key parts with no
separator. -/
def addHandler (chain : List (Str × Handler)) (h : Handler) (keyParts : List Str) :
    List (Str × Handler) :=
  (keyParts.flatten, h) :: eraseKey keyParts.flatten chain

/-- The routing key of a parsed message: `GetField` of each configured field
index, concatenated in list order (Iso8583Engine.go lines 107-113). -/
def routeKey (m : IsoMap) (fieldNumber : List Nat) : Str :=
  (fieldNumber.map (fun f => getFieldM m f)).flatten

/-- Modelled from the spec: `strutils.LeftPad` of the external
`randyardiansyah25/libpkg` dependency is not in this repository; §4.4 step 7
specifies the frame header as the byte length rendered as a `w`-digit,
zero-left-padded decimal string. -/
def leftPad (s : Str) (w : Nat) (c : Char) : Str :=
  List.replicate (w - s.length) c ++ s

/-- The response path of the connection handler (Iso8583Engine.go lines
129-140): compose the (handler-mutated) object, abort on error, otherwise
frame with the 4-digit length header.  `none` means nothing is written. -/
def respond (cfg : Schema) (m : IsoMap) : Option Str :=
  match ComposeMessage cfg m with
  | .error _ => none
  | .ok resp => some (leftPad (Nat.toDigits 10 resp.length) 4 '0' ++ resp)

/-- The per-connection handler (Iso8583Engine.go lines 83-141) from the point
where one framed message has been read: parse into a fresh object, derive the
routing key, resolve the handler (registered, else default, else abort), and
compose and frame the response.  `none` models an aborted connection with no
response written. -/
def engineHandler (cfg : Schema) (chain : List (Str × Handler)) (dflt : Option Handler)
    (fieldNumber : List Nat) (message : Str) : Option Str :=
  match Parse cfg message [] with
  | (_, some _) => none
  | (m, none) =>
    match lookupF (routeKey m fieldNumber) chain with
    | some funct => respond cfg (funct m)
    | none =>
      match dflt with
      | some d => respond cfg (d m)
      | none => none

/-! ### Concrete schemas and messages used in the claims -/

/-- The schema of the end-to-end example of §8: field 0 fixed/4/n, field 1
fixed/16/x, field 2 llvar/19/n, field 3 fixed/6/n. -/
def cfgC2 : Schema := fun i =>
  if i = 0 then some ⟨"n".data, "MTI".data, "fixed".data, 4⟩
  else if i = 1 then some ⟨"x".data, "BITMAP".data, "fixed".data, 16⟩
  else if i = 2 then some ⟨"n".data, "PAN".data, "llvar".data, 19⟩
  else if i = 3 then some ⟨"n".data, "PROCCODE".data, "fixed".data, 6⟩
  else none

/-- A variant schema whose bitmap field is declared 32 hex characters wide,
so the decoded bitmap buffer has the full 16 bytes and the parse loop can
run to field 128 without indexing out of range. -/
def cfg32 : Schema := fun i =>
  if i = 0 then some ⟨"n".data, "MTI".data, "fixed".data, 4⟩
  else if i = 1 then some ⟨"x".data, "BITMAP".data, "fixed".data, 32⟩
  else if i = 2 then some ⟨"n".data, "PAN".data, "llvar".data, 19⟩
  else if i = 3 then some ⟨"n".data, "PROCCODE".data, "fixed".data, 6⟩
  else none

/-- A schema declaring an 18-hex-character bitmap field, so the decoded
bitmap buffer has 9 bytes. -/
def cfg9 : Schema := fun i =>
  if i = 0 then some ⟨"n".data, "MTI".data, "fixed".data, 4⟩
  else if i = 1 then some ⟨"x".data, "BITMAP".data, "fixed".data, 18⟩
  else none

/-- The input field mapping of the §8 end-to-end example. -/
def elC2 : IsoMap :=
  [(0, "0200".data), (2, "4111111111111111".data), (3, "000000".data)]

/-- A second valid mapping for the round-trip claim. -/
def elC1 : IsoMap :=
  [(0, "0800".data), (2, "411111".data), (3, "000001".data)]

/-! ### Basic lemmas about the embedding -/

theorem bitOf_eq_testBit (b p : Nat) : bitOf b p = b.testBit p := by
  unfold bitOf
  rw [Nat.shiftLeft_eq, one_mul, Nat.and_two_pow]
  cases h : b.testBit p <;> simp [h, Nat.pos_pow_of_pos, Nat.two_pow_pos]

theorem bitOf_or (x y p : Nat) : bitOf (x ||| y) p = (bitOf x p || bitOf y p) := by
  simp [bitOf_eq_testBit, Nat.testBit_lor]

theorem bitOf_shift_one (q p : Nat) : bitOf (1 <<< q) p = decide (q = p) := by
  rw [bitOf_eq_testBit, Nat.shiftLeft_eq, one_mul]
  by_cases h : q = p
  · subst h; simp [Nat.testBit_two_pow_self]
  · simp [Nat.testBit_two_pow_of_ne h, h]

theorem bitOf_zero (p : Nat) : bitOf 0 p = false := by
  simp [bitOf, Nat.zero_and]

theorem getD_replicate_zero (n j : Nat) : (List.replicate n (0 : Nat)).getD j 0 = 0 := by
  induction n generalizing j with
  | zero => simp [List.getD]
  | succ n ih =>
    cases j with
    | zero => simp [List.replicate]
    | succ j => simp [List.replicate, ih j]

theorem getD_set_eq (l : List Nat) (i : Nat) (a d : Nat) (h : i < l.length) :
    (l.set i a).getD i d = a := by
  induction l generalizing i with
  | nil => simp at h
  | cons x xs ih =>
    cases i with
    | zero => simp [List.set]
    | succ i => simpa [List.set] using ih i (by simpa using h)

theorem getD_set_ne (l : List Nat) (i j : Nat) (a d : Nat) (h : i ≠ j) :
    (l.set i a).getD j d = l.getD j d := by
  induction l generalizing i j with
  | nil => simp [List.set]
  | cons x xs ih =>
    cases i with
    | zero =>
      cases j with
      | zero => exact absurd rfl h
      | succ j => simp [List.set]
    | succ i =>
      cases j with
      | zero => simp [List.set]
      | succ j => simpa [List.set] using ih i j (fun e => h (by simp [e]))

theorem bmTestBit_replicate_zero (n i : Nat) : bmTestBit (List.replicate n 0) i = false := by
  simp [bmTestBit, getD_replicate_zero, bitOf_zero]

theorem bmTestBit_setBmBit {bm bm2 : List Nat} {k : Nat}
    (h : setBmBit bm k = some bm2) (i : Nat) (hi : 1 ≤ i) :
    bmTestBit bm2 i = (bmTestBit bm i || decide (i = k ∧ 1 < k)) := by
  unfold setBmBit at h
  by_cases hk : 1 < k
  · simp only [hk, if_true] at h
    by_cases hb : (k - 1) / 8 < bm.length
    · simp only [hb, if_true, Option.some.injEq] at h
      subst h
      by_cases hbyte : (i - 1) / 8 = (k - 1) / 8
      · unfold bmTestBit
        rw [hbyte, getD_set_eq _ _ _ _ hb, bitOf_or, bitOf_shift_one]
        have hiff : (7 - ((k - 1) % 8) = 7 - ((i - 1) % 8)) ↔ (i = k ∧ 1 < k) := by
          constructor
          · intro he; exact ⟨by omega, hk⟩
          · intro he; omega
        rw [decide_eq_decide.mpr hiff]
      · unfold bmTestBit
        rw [getD_set_ne _ _ _ _ _ (fun e => hbyte e.symm)]
        have : ¬(i = k ∧ 1 < k) := fun e => hbyte (by rw [e.1])
        simp [this]
    · simp [hb] at h
  · simp only [hk, if_false] at h
    obtain rfl := Option.some.inj h
    have : ¬(i = k ∧ 1 < k) := fun e => hk e.2
    simp [this]

theorem setBmBit_ok {bm : List Nat} {k : Nat} (h : 1 < k → k ≤ 8 * bm.length) :
    ∃ bm2, setBmBit bm k = some bm2 ∧ bm2.length = bm.length := by
  unfold setBmBit
  by_cases hk : 1 < k
  · have hb : (k - 1) / 8 < bm.length := by
      have := h hk
      omega
    refine ⟨bm.set ((k - 1) / 8)
      ((bm.getD ((k - 1) / 8) 0) ||| (1 <<< (7 - ((k - 1) % 8)))), ?_, ?_⟩
    · rw [if_pos hk, if_pos hb]
    · rw [List.length_set]
  · exact ⟨bm, by rw [if_neg hk], rfl⟩

theorem setBits_ok : ∀ (ks : List Nat) (bm : List Nat),
    (∀ k ∈ ks, 1 < k → k ≤ 8 * bm.length) →
    ∃ bm2, setBits bm ks = some bm2 ∧ bm2.length = bm.length ∧
      ∀ i, 1 ≤ i →
        bmTestBit bm2 i = (bmTestBit bm i || (decide (1 < i) && decide (i ∈ ks))) := by
  intro ks
  induction ks with
  | nil =>
    intro bm _
    exact ⟨bm, rfl, rfl, by intro i _; simp⟩
  | cons k ks ih =>
    intro bm hks
    obtain ⟨bmk, hbmk, hlenk⟩ := setBmBit_ok (hks k (by simp))
    obtain ⟨bm2, hbm2, hlen2, hbits⟩ := ih bmk (by
      intro k2 hk2 h1
      rw [hlenk]
      exact hks k2 (by simp [hk2]) h1)
    refine ⟨bm2, by simp [setBits, hbmk, hbm2], by rw [hlen2, hlenk], ?_⟩
    intro i hi
    rw [hbits i hi, bmTestBit_setBmBit hbmk i hi]
    rw [Bool.eq_iff_iff]
    simp only [Bool.or_eq_true, Bool.and_eq_true, decide_eq_true_eq, List.mem_cons]
    constructor
    · rintro ((hb | ⟨he, hk⟩) | ⟨h1, hm⟩)
      · exact Or.inl hb
      · exact Or.inr ⟨he ▸ hk, Or.inl he⟩
      · exact Or.inr ⟨h1, Or.inr hm⟩
    · rintro (hb | ⟨h1, he | hm⟩)
      · exact Or.inl (Or.inl hb)
      · exact Or.inl (Or.inr ⟨he, he ▸ h1⟩)
      · exact Or.inr ⟨h1, hm⟩

theorem foldl_maxKey_shift (m : IsoMap) (a : Nat) :
    m.foldl (fun acc p => max acc p.1) a = max a (m.foldl (fun acc p => max acc p.1) 0) := by
  induction m generalizing a with
  | nil => simp
  | cons p r ih =>
    rw [List.foldl_cons, List.foldl_cons]
    show r.foldl _ (max a p.1) = max a (r.foldl _ (max 0 p.1))
    rw [ih (max a p.1), ih (max 0 p.1), Nat.zero_max, Nat.max_assoc]

theorem maxKey_cons (k : Nat) (v : Str) (m : IsoMap) :
    maxKey ((k, v) :: m) = max k (maxKey m) := by
  unfold maxKey
  rw [List.foldl_cons]
  show m.foldl _ (max 0 k) = _
  rw [foldl_maxKey_shift, Nat.zero_max]

theorem foldl_max_shift (l : List Nat) (a : Nat) : l.foldl max a = max a (l.foldl max 0) := by
  induction l generalizing a with
  | nil => simp
  | cons x xs ih =>
    rw [List.foldl_cons, List.foldl_cons, ih (max a x), ih (max 0 x), Nat.zero_max,
      Nat.max_assoc]

theorem mem_le_foldl_max {a : Nat} {l : List Nat} (h : a ∈ l) : a ≤ l.foldl max 0 := by
  induction l with
  | nil => cases h
  | cons x xs ih =>
    rw [List.foldl_cons, foldl_max_shift, Nat.zero_max]
    rcases List.mem_cons.mp h with he | hm
    · exact he ▸ Nat.le_max_left _ _
    · exact Nat.le_trans (ih hm) (Nat.le_max_right _ _)

theorem lookupF_eraseKey_ne {α β : Type} [DecidableEq α] {j k : α} (h : j ≠ k)
    (m : List (α × β)) : lookupF j (eraseKey k m) = lookupF j m := by
  have hkj : ¬k = j := fun e => h e.symm
  induction m with
  | nil => rfl
  | cons p r ih =>
    by_cases hp : p.1 = k
    · simp [eraseKey, lookupF, hp, hkj, ih]
    · by_cases hj : p.1 = j <;> simp [eraseKey, lookupF, hp, hj, h, hkj, ih]

theorem lookupF_setField_ne {j k : Nat} (h : j ≠ k) (v : Str) (m : IsoMap) :
    lookupF j (setField k v m) = lookupF j m := by
  have : ¬k = j := fun e => h e.symm
  simp [setField, lookupF, this, lookupF_eraseKey_ne h]

theorem parseLoop_frame (cfg : Schema) (bm : List Nat) (msg : Str) (j : Nat)
    (hj : bmTestBit bm j = false) :
    ∀ (fuel i pos : Nat) (st : IsoMap),
      lookupF j (parseLoop cfg bm msg fuel i pos st).1 = lookupF j st := by
  intro fuel
  induction fuel with
  | zero => intro i pos st; rfl
  | succ fuel ih =>
    intro i pos st
    simp only [parseLoop]
    by_cases h128 : i ≤ 128
    · simp only [h128, if_true]
      by_cases hb : (i - 1) / 8 < bm.length
      · simp only [hb, if_true]
        by_cases hbit : bitOf (bm.getD ((i - 1) / 8) 0) (7 - ((i - 1) % 8)) = true
        · simp only [hbit, if_true]
          have hij : j ≠ i := by
            intro e
            simp only [bmTestBit, e] at hj
            rw [hj] at hbit
            exact Bool.false_ne_true hbit
          cases hcfg : cfg i with
          | none => simp [hcfg]
          | some fc =>
            simp only [hcfg]
            cases hpf : parseField i fc msg pos with
            | error e => simp
            | ok vp =>
              obtain ⟨v, pos2⟩ := vp
              simp only []
              rw [ih (i + 1) pos2 (setField i v st)]
              exact lookupF_setField_ne hij v st
        · simp only [Bool.not_eq_true] at hbit
          simp only [hbit, Bool.false_eq_true, if_false]
          exact ih (i + 1) pos st
      · simp [hb]
    · simp [h128]

theorem composeLoop_congr (cfg : Schema) {el1 el2 : IsoMap}
    (h : ∀ i, 2 ≤ i → lookupF i el1 = lookupF i el2) :
    ∀ fuel i, 2 ≤ i → composeLoop cfg el1 fuel i = composeLoop cfg el2 fuel i := by
  intro fuel
  induction fuel with
  | zero => intro i _; rfl
  | succ fuel ih =>
    intro i hi
    simp only [composeLoop]
    by_cases h128 : i ≤ 128
    · simp only [h128, if_true]
      rw [h i hi]
      cases lookupF i el2 with
      | none => exact ih (i + 1) (by omega)
      | some value =>
        cases cfg i with
        | none => rfl
        | some fc =>
          simp only [ih (i + 1) (by omega)]
    · simp [h128]

theorem hexEncode_length (l : List Nat) : (hexEncode l).length = 2 * l.length := by
  induction l with
  | nil => rfl
  | cons b r ih =>
    simp [hexEncode, ih]
    omega

/-! ### Concrete messages used by the claims -/

/-- The wire string `ComposeMessage` produces from `elC2` under `cfgC2`. -/
def c2full : Str := "02006000000000000000164111111111111111000000".data

/-- The wire string `ComposeMessage` produces from `elC1` under `cfgC2`. -/
def c1full : Str := "0800600000000000000006411111000001".data

/-- A message truncated inside field 2, after a complete MTI and bitmap. -/
def msgShort : Str := ("0200" ++ "6000000000000000" ++ "1641111").data

/-- A message for `cfg9`: MTI plus an 18-hex-character all-zero bitmap. -/
def msg9 : Str := ("0200" ++ "000000000000000000").data

/-- A message for `cfg32` whose bitmap indicates only field 2 and whose
llvar length digits are the non-numeric `"AB"`. -/
def msgC10 : Str := ("0200" ++ "40000000000000000000000000000000" ++ "AB").data

/-! ### The claims -/

set_option maxRecDepth 100000 in
/-- Claim C1: the spec's round-trip property (Compose then Parse restores
every field except the bitmap) is defeated by the code: the parse loop tests
bits 2..128 against the decoded bitmap buffer, so with the example schema
(8-byte bitmap) parsing the composed output of a valid message object aborts
with an index-out-of-range panic at field 65 instead of returning the
original field values. -/
theorem claim1_roundtrip_defeated :
    ComposeMessage cfgC2 elC1 = .ok c1full ∧
    (Parse cfgC2 c1full []).2 = some (.panicIndex 65) := by
  exact ⟨rfl, by decide⟩

set_option maxRecDepth 100000 in
/-- Claim C2 (counterexample): composing the §8 example fields produces the
llvar length digits `"16"` (the PAN has 16 characters), not `"17"` as
claimed, and parsing the composed output does not succeed. -/
theorem claim2_counterexample :
    ComposeMessage cfgC2 elC2 = .ok c2full ∧
    (c2full.drop 20).take 2 ≠ "17".data ∧
    (Parse cfgC2 c2full []).2 ≠ none := by
  exact ⟨rfl, by decide, by decide⟩

set_option maxRecDepth 100000 in
/-- Claim C2 (amended): composing `{0: 0200, 2: PAN, 3: 000000}` under the
example schema yields MTI `0200`, the 16-hex-character bitmap
`6000000000000000` (bits 2 and 3 set, first hex digits `60`), then the
llvar length digits `16`, the PAN, and `000000`; parsing that output stores
fields 0, 2 and 3 with the original values but then aborts with an
index-out-of-range panic at field 65 rather than succeeding. -/
theorem claim2_amended :
    ComposeMessage cfgC2 elC2 = .ok c2full ∧
    c2full.take 4 = "0200".data ∧
    (c2full.drop 4).take 16 = "6000000000000000".data ∧
    (c2full.drop 20).take 2 = "16".data ∧
    (c2full.drop 22).take 16 = "4111111111111111".data ∧
    c2full.drop 38 = "000000".data ∧
    (Parse cfgC2 c2full []).2 = some (.panicIndex 65) ∧
    lookupF 0 (Parse cfgC2 c2full []).1 = some "0200".data ∧
    lookupF 2 (Parse cfgC2 c2full []).1 = some "4111111111111111".data ∧
    lookupF 3 (Parse cfgC2 c2full []).1 = some "000000".data := by
  exact ⟨rfl, by decide, by decide, by decide, by decide, by decide, by decide,
    by decide, by decide, by decide⟩

set_option maxRecDepth 100000 in
/-- Claim C3 (counterexample): with a schema declaring an 18-hex-character
bitmap field the decoded buffer has 9 bytes, which is shorter than 16, yet
the bit test for field 65 (byte index 8) is in bounds; the out-of-range
panic instead happens at field 73. -/
theorem claim3_counterexample :
    (Parse cfg9 msg9 []).2 = some (.panicIndex 73) ∧
    hexDecode ((msg9.drop 4).take 18) = some (List.replicate 9 0) ∧
    (List.replicate 9 (0 : Nat)).length < 16 ∧
    some (PErr.panicIndex 73) ≠ some (PErr.panicIndex 65) := by
  exact ⟨by decide, by decide, by decide, by decide⟩

/-- Claim C3 (amended): the parse loop tests the bitmap bit of every field
index up to 128 unconditionally.  Whenever it reaches field 65 with a
bitmap buffer of at most 8 bytes it indexes out of bounds there, and in
general a buffer of fewer than 16 bytes makes the bit test for field index
`8 * length + 1` index out of bounds — independent of the buffer's
contents, hence of whether bit 1 is set. -/
theorem claim3_oob_loop (cfg : Schema) (bm : List Nat) (msg : Str)
    (fuel pos : Nat) (st : IsoMap) :
    (bm.length ≤ 8 →
      parseLoop cfg bm msg (fuel + 1) 65 pos st = (st, pos, some (.panicIndex 65))) ∧
    (bm.length < 16 →
      parseLoop cfg bm msg (fuel + 1) (8 * bm.length + 1) pos st
        = (st, pos, some (.panicIndex (8 * bm.length + 1)))) := by
  constructor
  · intro h
    simp only [parseLoop]
    rw [if_pos (by omega), if_neg (by omega)]
  · intro h
    simp only [parseLoop]
    rw [if_pos (by omega), if_neg (by omega)]

set_option maxRecDepth 100000 in
/-- Witness for C3: a full `Parse` under the ordinary 16-hex-character
schema with an all-zero bitmap (bit 1 clear) panics at field 65, and the
loop lemma applied at a concrete 8-byte buffer. -/
theorem claim3_witness :
    parseLoop cfg9 (List.replicate 8 0) [] 1 65 20 [] = ([], 20, some (.panicIndex 65)) ∧
    (Parse cfgC2 ("0200" ++ "0000000000000000").data []).2 = some (.panicIndex 65) := by
  exact ⟨(claim3_oob_loop cfg9 (List.replicate 8 0) [] 0 20 []).1 (by decide), by decide⟩

set_option maxRecDepth 100000 in
/-- Claim C4 (counterexample): on an input truncated inside a field, `Parse`
ends in a modelled Go panic (an out-of-range slice), not a returned decode
error, and the message object is left holding the partially decoded
fields. -/
theorem claim4_counterexample :
    (Parse cfgC2 msgShort []).2.map PErr.isPanic = some true ∧
    (Parse cfgC2 msgShort []).1 ≠ [] := by
  exact ⟨by decide, by decide⟩

set_option maxRecDepth 100000 in
/-- Claim C4 (amended): an input shorter than the schema implies aborts
`Parse` with an out-of-range slice panic rather than a returned decode
error (shown generally for inputs shorter than the MTI width), and fields
decoded before the abort remain stored in the message object (shown on a
concrete truncated message, which keeps fields 0 and 1). -/
theorem claim4_short_input :
    (∀ (cfg : Schema) (msg : Str) (st : IsoMap) (c0 : FieldConfig),
      cfg 0 = some c0 → msg.length < c0.maxLen →
      Parse cfg msg st = (st, some .panicSlice)) ∧
    (Parse cfgC2 msgShort []).2 = some PErr.panicSlice ∧
    PErr.panicSlice.isPanic = true ∧
    lookupF 0 (Parse cfgC2 msgShort []).1 = some "0200".data ∧
    lookupF 1 (Parse cfgC2 msgShort []).1 = some "6000000000000000".data := by
  refine ⟨?_, by decide, by decide, by decide, by decide⟩
  intro cfg msg st c0 h0 hlen
  unfold Parse
  simp only [h0]
  rw [if_neg (by omega)]

/-- Witness for C4: the general short-input clause at a concrete two-byte
input. -/
theorem claim4_witness :
    Parse cfgC2 "02".data [] = ([], some .panicSlice) := by
  exact claim4_short_input.1 cfgC2 "02".data [] ⟨"n".data, "MTI".data, "fixed".data, 4⟩
    rfl (by decide)

/-- Claim C6: for a fixed-length field of width `N`, `padValue` left-pads
shorter numeric (`"n"`) values with `'0'`, right-pads shorter values of any
other content type with spaces, and silently truncates longer values to
their first `N` characters. -/
theorem claim6_padValue (v : Str) (N : Nat) (ct : Str) :
    (v.length < N → ct = "n".data →
      padValue v N ct = List.replicate (N - v.length) '0' ++ v ∧
        (padValue v N ct).length = N) ∧
    (v.length < N → ct ≠ "n".data →
      padValue v N ct = v ++ List.replicate (N - v.length) ' ' ∧
        (padValue v N ct).length = N) ∧
    (N < v.length → padValue v N ct = v.take N) := by
  refine ⟨?_, ?_, ?_⟩
  · intro hlen hct
    unfold padValue
    rw [if_neg (by omega), if_pos hct]
    refine ⟨rfl, ?_⟩
    simp
    omega
  · intro hlen hct
    unfold padValue
    rw [if_neg (by omega), if_neg hct]
    refine ⟨rfl, ?_⟩
    simp
    omega
  · intro h
    unfold padValue
    rw [if_pos h]

/-- Witness for C6: the three padding clauses at concrete values. -/
theorem claim6_witness :
    padValue "42".data 5 "n".data = "00042".data ∧
    padValue "AB".data 4 "an".data = "AB  ".data ∧
    padValue "123456".data 3 "n".data = "123".data := by
  refine ⟨?_, ?_, ?_⟩
  · rw [((claim6_padValue "42".data 5 "n".data).1 (by decide) rfl).1]
    decide
  · rw [((claim6_padValue "AB".data 4 "an".data).2.1 (by decide) (by decide)).1]
    decide
  · rw [(claim6_padValue "123456".data 3 "n".data).2.2 (by decide)]
    decide

set_option maxRecDepth 100000 in
/-- Claim C10: when the 2- or 3-character length digits of an llvar or
lllvar field are not a valid decimal number, the conversion error is
discarded, the length is taken as 0, the field reads as the empty string
and the cursor advances just past the length digits; a full `Parse` with
such a field succeeds and stores the empty string — a silent wrong result
rather than a decode error. -/
theorem claim10_atoi_error_silent :
    (∀ (i : Nat) (fc : FieldConfig) (msg : Str) (pos : Nat),
      fc.lenType = "llvar".data → pos + 2 ≤ msg.length →
      atoiInt ((msg.drop pos).take 2) = none →
      parseField i fc msg pos = .ok ([], pos + 2)) ∧
    (∀ (i : Nat) (fc : FieldConfig) (msg : Str) (pos : Nat),
      fc.lenType = "lllvar".data → pos + 3 ≤ msg.length →
      atoiInt ((msg.drop pos).take 3) = none →
      parseField i fc msg pos = .ok ([], pos + 3)) ∧
    (Parse cfg32 msgC10 []).2 = none ∧
    lookupF 2 (Parse cfg32 msgC10 []).1 = some ([] : Str) := by
  refine ⟨?_, ?_, by decide, by decide⟩
  · intro i fc msg pos h1 h2 h3
    unfold parseField
    rw [if_neg (by rw [h1]; decide), if_pos h1, if_pos h2]
    simp [h3, h2]
  · intro i fc msg pos h1 h2 h3
    unfold parseField
    rw [if_neg (by rw [h1]; decide), if_neg (by rw [h1]; decide), if_pos h1, if_pos h2]
    simp [h3, h2]

/-- Witness for C10: the llvar clause at a concrete non-numeric length. -/
theorem claim10_witness :
    parseField 2 ⟨"n".data, "PAN".data, "llvar".data, 19⟩ "ABCD".data 0 = .ok ([], 2) := by
  exact claim10_atoi_error_silent.1 2 ⟨"n".data, "PAN".data, "llvar".data, 19⟩
    "ABCD".data 0 rfl (by decide) (by decide)

/-- A valid message for `cfg32` with fields 2 and 3, parseable to the end
because the declared bitmap width yields a 16-byte buffer. -/
def msgC8 : Str :=
  ("0200" ++ "60000000000000000000000000000000" ++ "164111111111111111" ++ "000000").data

/-- Claim C7: `ComposeMessage` never reads the stored value of field 1 —
whenever field 0 is present, composing with field 1 set to any value gives
the same output as composing with field 1 absent, because the bitmap is
recomputed from the present field indices. -/
theorem claim7_compose_ignores_field1 (cfg : Schema) (el : IsoMap) (v : Str)
    (h0 : (lookupF 0 el).isSome = true) :
    ComposeMessage cfg (setField 1 v el) = ComposeMessage cfg (eraseKey 1 el) := by
  obtain ⟨mti, hmti⟩ := Option.isSome_iff_exists.mp h0
  have h01 : (0 : Nat) ≠ 1 := by omega
  have hlook0e : lookupF 0 (eraseKey 1 el) = some mti := by
    rw [lookupF_eraseKey_ne h01]
    exact hmti
  have hlook0s : lookupF 0 (setField 1 v el) = some mti := by
    rw [lookupF_setField_ne h01]
    exact hmti
  have hne2 : ¬(eraseKey 1 el).length = 0 := by
    intro h
    rw [List.length_eq_zero.mp h] at hlook0e
    simp [lookupF] at hlook0e
  have hne1 : ¬(setField 1 v el).length = 0 := by simp [setField]
  have hcon : ∀ i, 2 ≤ i → lookupF i (setField 1 v el) = lookupF i (eraseKey 1 el) := by
    intro i hi
    rw [lookupF_setField_ne (by omega), lookupF_eraseKey_ne (by omega)]
  have hkeys : keysOf (setField 1 v el) = 1 :: keysOf (eraseKey 1 el) := rfl
  have hbm : composeBitmapOf (setField 1 v el) = composeBitmapOf (eraseKey 1 el) := by
    have hmax : maxKey (setField 1 v el) = max 1 (maxKey (eraseKey 1 el)) := maxKey_cons 1 v _
    simp only [composeBitmapOf]
    rw [hmax, hkeys]
    by_cases hM : 64 < maxKey (eraseKey 1 el)
    · have h64 : 64 < max 1 (maxKey (eraseKey 1 el)) :=
        lt_of_lt_of_le hM (Nat.le_max_right 1 _)
      rw [if_pos h64, if_pos h64, if_pos hM, if_pos hM]
      simp [setBits, setBmBit]
    · have h64 : ¬64 < max 1 (maxKey (eraseKey 1 el)) := by
        intro h
        rcases lt_max_iff.mp h with h1 | h2
        · omega
        · exact hM h2
      rw [if_neg h64, if_neg h64, if_neg hM, if_neg hM]
      simp [setBits, setBmBit]
  simp only [ComposeMessage, if_neg hne1, if_neg hne2, hlook0s, hlook0e, hbm,
    composeLoop_congr cfg hcon 127 2 (by omega)]

/-- Witness for C7 at a concrete schema and mapping. -/
theorem claim7_witness :
    ComposeMessage cfgC2 (setField 1 "DEAD".data [(0, "0200".data), (2, "41".data)]) =
      ComposeMessage cfgC2 (eraseKey 1 [(0, "0200".data), (2, "41".data)]) := by
  exact claim7_compose_ignores_field1 cfgC2 [(0, "0200".data), (2, "41".data)]
    "DEAD".data (by decide)

set_option maxRecDepth 100000 in
/-- Claim C8 (counterexample): a successful `Parse` does not fully replace
the object's prior content — a field set before parsing and absent from the
parsed message survives. -/
theorem claim8_counterexample :
    (Parse cfg32 msgC8 [(55, "x".data)]).2 = none ∧
    lookupF 55 (Parse cfg32 msgC8 [(55, "x".data)]).1 = some "x".data := by
  exact ⟨by decide, by decide⟩

/-- Claim C8 (amended): `Parse` overwrites fields 0 and 1 and every field
whose bitmap bit is set, but any other field of the prior content keeps its
old binding, whatever the parse outcome — parsing is additive over prior
content, not a full replacement. -/
theorem claim8_frame (cfg : Schema) (msg : Str) (st : IsoMap)
    (c0 c1 : FieldConfig) (j : Nat)
    (h0 : cfg 0 = some c0) (h1 : cfg 1 = some c1) (hj : 2 ≤ j)
    (hbit : ∀ bm, hexDecode ((msg.drop c0.maxLen).take c1.maxLen) = some bm →
      bmTestBit bm j = false) :
    lookupF j (Parse cfg msg st).1 = lookupF j st := by
  unfold Parse
  simp only [h0, h1]
  by_cases hl1 : c0.maxLen ≤ msg.length
  · simp only [if_pos hl1]
    by_cases hl2 : c0.maxLen + c1.maxLen ≤ msg.length
    · simp only [if_pos hl2]
      cases hdec : hexDecode ((msg.drop c0.maxLen).take c1.maxLen) with
      | none =>
        simp only [hdec]
        rw [lookupF_setField_ne (by omega), lookupF_setField_ne (by omega)]
      | some bm =>
        simp only [hdec]
        rw [parseLoop_frame cfg bm msg j (hbit bm hdec) 127 2 _ _]
        rw [lookupF_setField_ne (by omega), lookupF_setField_ne (by omega)]
    · simp only [if_neg hl2]
      rw [lookupF_setField_ne (by omega)]
  · simp only [if_neg hl1]

/-- Witness for C8: the frame property at the concrete successful parse of
`msgC8` over prior content holding field 55. -/
theorem claim8_witness :
    lookupF 55 (Parse cfg32 msgC8 [(55, "x".data)]).1 =
      lookupF 55 [(55, "x".data)] := by
  apply claim8_frame cfg32 msgC8 [(55, "x".data)] _ _ 55 rfl rfl (by omega)
  intro bm h
  have hB : hexDecode ((msgC8.drop (4 : Nat)).take 32) = some (96 :: List.replicate 15 0) := by
    decide
  have hsome : some (96 :: List.replicate 15 0) = some bm := hB.symm.trans h
  obtain rfl := (Option.some.inj hsome).symm
  decide

theorem maxKey_cons_elS (mti : Str) (f : Nat → Str) (S : List Nat) :
    maxKey ((0, mti) :: S.map (fun s => (s, f s))) = S.foldl max 0 := by
  rw [maxKey_cons, Nat.zero_max]
  unfold maxKey
  rw [List.foldl_map]

theorem keysOf_cons_elS (mti : Str) (f : Nat → Str) (S : List Nat) :
    keysOf ((0, mti) :: S.map (fun s => (s, f s))) = 0 :: S := by
  unfold keysOf
  simp only [List.map_cons, List.map_map]
  rw [show (Prod.fst ∘ fun s => (s, f s)) = id from rfl, List.map_id]

/-- Claim C5: the bitmap `ComposeMessage` builds for a mapping holding the
MTI and a set `S` of field indices from `[2,128]` is exactly 8 bytes
(16 hex characters) with bit 1 clear, the bit of every index of `S` set and
every other bit clear when `max S ≤ 64`; and 16 bytes with bit 1 set when
`max S > 64`. -/
theorem claim5_bitmap (S : List Nat) (mti : Str) (f : Nat → Str)
    (hS : ∀ s ∈ S, 2 ≤ s ∧ s ≤ 128) :
    ∃ bm, composeBitmapOf ((0, mti) :: S.map (fun s => (s, f s))) = some bm ∧
      (S.foldl max 0 ≤ 64 →
        bm.length = 8 ∧ ((hexEncode bm).map Char.toUpper).length = 16 ∧
        bmTestBit bm 1 = false ∧
        ∀ i, 2 ≤ i → i ≤ 64 → (bmTestBit bm i = true ↔ i ∈ S)) ∧
      (64 < S.foldl max 0 →
        bm.length = 16 ∧ bmTestBit bm 1 = true) := by
  have hmax := maxKey_cons_elS mti f S
  have hkeys := keysOf_cons_elS mti f S
  by_cases hM : 64 < S.foldl max 0
  · have hsb := setBits_ok (0 :: S)
      ((List.replicate 16 0).set 0 (((List.replicate 16 (0 : Nat)).getD 0 0) ||| 128))
      (by
        intro k hk h1
        rcases List.mem_cons.mp hk with rfl | hmem
        · omega
        · have := (hS k hmem).2
          simp only [List.length_set, List.length_replicate]
          omega)
    obtain ⟨bm2, hset, hlen, hbits⟩ := hsb
    refine ⟨bm2, ?_, ?_, ?_⟩
    · simp only [composeBitmapOf]
      rw [hmax, if_pos hM, if_pos hM, hkeys]
      exact hset
    · intro h
      omega
    · intro _
      constructor
      · rw [hlen]
        simp [List.length_set, List.length_replicate]
      · rw [hbits 1 (by omega)]
        have hb1 : bmTestBit
            ((List.replicate 16 0).set 0 (((List.replicate 16 (0 : Nat)).getD 0 0) ||| 128))
            1 = true := by decide
        rw [hb1]
        simp
  · have hsb := setBits_ok (0 :: S) (List.replicate 8 0)
      (by
        intro k hk h1
        rcases List.mem_cons.mp hk with rfl | hmem
        · omega
        · have := mem_le_foldl_max hmem
          simp only [List.length_replicate]
          omega)
    obtain ⟨bm2, hset, hlen, hbits⟩ := hsb
    refine ⟨bm2, ?_, ?_, ?_⟩
    · simp only [composeBitmapOf]
      rw [hmax, if_neg hM, if_neg hM, hkeys]
      exact hset
    · intro _
      refine ⟨by rw [hlen]; simp, ?_, ?_, ?_⟩
      · rw [List.length_map, hexEncode_length, hlen]
        simp
      · rw [hbits 1 (by omega), bmTestBit_replicate_zero]
        simp
      · intro i h2 h64
        rw [hbits i (by omega), bmTestBit_replicate_zero]
        simp only [Bool.false_or, Bool.and_eq_true, decide_eq_true_eq]
        constructor
        · rintro ⟨h1, hm⟩
          rcases List.mem_cons.mp hm with rfl | hm2
          · omega
          · exact hm2
        · intro hm
          exact ⟨by omega, List.mem_cons.mpr (Or.inr hm)⟩
    · intro h
      omega

/-- Witness for C5 at `S = [2, 3]`. -/
theorem claim5_witness :
    ∃ bm, composeBitmapOf ((0, "0200".data) :: [2, 3].map
        (fun s => (s, (fun _ => "9".data) s))) = some bm ∧
      ([2, 3].foldl max 0 ≤ 64 →
        bm.length = 8 ∧ ((hexEncode bm).map Char.toUpper).length = 16 ∧
        bmTestBit bm 1 = false ∧
        ∀ i, 2 ≤ i → i ≤ 64 → (bmTestBit bm i = true ↔ i ∈ [2, 3])) ∧
      (64 < [2, 3].foldl max 0 →
        bm.length = 16 ∧ bmTestBit bm 1 = true) := by
  exact claim5_bitmap [2, 3] "0200".data (fun _ => "9".data) (by decide)

/-- Claim C9: `AddHandler` registers under the separator-free concatenation
of its key parts; for a parsed message the engine concatenates `GetField`
of each routing field index in order, invokes the handler registered under
the resulting key when one exists, otherwise the default handler when
registered, and otherwise composes and writes nothing. -/
theorem claim9_dispatch :
    (∀ (chain : List (Str × Handler)) (h : Handler) (parts : List Str),
      lookupF parts.flatten (addHandler chain h parts) = some h) ∧
    (∀ (cfg : Schema) (chain : List (Str × Handler)) (dflt : Option Handler)
        (fns : List Nat) (msg : Str) (m : IsoMap) (h : Handler),
      Parse cfg msg [] = (m, none) →
      lookupF (routeKey m fns) chain = some h →
      engineHandler cfg chain dflt fns msg = respond cfg (h m)) ∧
    (∀ (cfg : Schema) (chain : List (Str × Handler)) (d : Handler)
        (fns : List Nat) (msg : Str) (m : IsoMap),
      Parse cfg msg [] = (m, none) →
      lookupF (routeKey m fns) chain = none →
      engineHandler cfg chain (some d) fns msg = respond cfg (d m)) ∧
    (∀ (cfg : Schema) (chain : List (Str × Handler))
        (fns : List Nat) (msg : Str) (m : IsoMap),
      Parse cfg msg [] = (m, none) →
      lookupF (routeKey m fns) chain = none →
      engineHandler cfg chain none fns msg = none) := by
  refine ⟨?_, ?_, ?_, ?_⟩
  · intro chain h parts
    simp [addHandler, lookupF]
  · intro cfg chain dflt fns msg m h hp hl
    simp only [engineHandler, hp, hl]
  · intro cfg chain d fns msg m hp hl
    simp only [engineHandler, hp, hl]
  · intro cfg chain fns msg m hp hl
    simp only [engineHandler, hp, hl]

/-- The identity handler, used as a concrete registered handler. -/
def hId : Handler := fun m => m

/-- The element map `Parse` produces from `msgC8` under `cfg32`. -/
def mW : IsoMap :=
  [(3, "000000".data), (2, "4111111111111111".data),
   (1, "60000000000000000000000000000000".data), (0, "0200".data)]

set_option maxRecDepth 100000 in
/-- Witness for C9: all four dispatch clauses at a concrete schema, message
and handler table keyed on field 0. -/
theorem claim9_witness :
    lookupF ([("0200".data : Str)]).flatten (addHandler [] hId ["0200".data]) = some hId ∧
    engineHandler cfg32 (addHandler [] hId ["0200".data]) none [0] msgC8 =
      respond cfg32 (hId mW) ∧
    engineHandler cfg32 [] (some hId) [0] msgC8 = respond cfg32 (hId mW) ∧
    engineHandler cfg32 [] none [0] msgC8 = none := by
  refine ⟨claim9_dispatch.1 [] hId ["0200".data], ?_, ?_, ?_⟩
  · exact claim9_dispatch.2.1 cfg32 (addHandler [] hId ["0200".data]) none [0] msgC8 mW hId
      (by decide) rfl
  · exact claim9_dispatch.2.2.1 cfg32 [] hId [0] msgC8 mW (by decide) rfl
  · exact claim9_dispatch.2.2.2 cfg32 [] [0] msgC8 mW (by decide) rfl

end Iso8583
